import Mathlib

/-!
Verification of the data-cleaning / profiling / chart-aggregation pipeline
of the tabular-visualization backend (`backend/app/routes.py`).

The embedding models pandas cell values shallowly: a cell is `null` (Python
`None`), the float `NaN`, `±Infinity`, a finite float (modelled as `ℚ`),
a Python integer, or a string.  Machine floats are modelled by exact
rationals; `NaN`/`±inf` are explicit constructors because the code
branches on them (`pd.isna`, `np.isinf`).
-/

/-- A raw pandas cell value. -/
inductive RawValue where
  | null
  | nan
  | posInf
  | negInf
  | num (q : ℚ)
  | int (n : ℤ)
  | str (s : String)
deriving DecidableEq, Repr

/-- `pd.isna`: `None` and `NaN` are missing; `±inf` is *not* missing. -/
def RawValue.isNA : RawValue → Bool
  | .null => true
  | .nan => true
  | _ => false

/-- ASCII `str.lower` on one character (the sentinel strings compared
against are ASCII). -/
def lowerChar (c : Char) : Char :=
  if 65 ≤ c.toNat ∧ c.toNat ≤ 90 then Char.ofNat (c.toNat + 32) else c

/-- `str.lower` (character list form). -/
def lowerChars (cs : List Char) : List Char :=
  cs.map lowerChar

/-- `clean_value` (routes.py lines 647-661): converts `None`/`NaN`/`±inf` to
`None`, keeps finite floats and ints, maps the strings `"nan"`/`"none"`/`""`
(case-insensitively) to `None`, and passes every other value through. -/
def clean_value : RawValue → RawValue
  | .null => .null                         -- `if x is None: return None`
  | .nan => .null                          -- `if pd.isna(x): return None`
  | .posInf => .null                       -- float branch: `np.isinf(x)`
  | .negInf => .null
  | .num q => .num q                       -- finite float: `return float(x)`
  | .int n => .int n                       -- `return int(x)`
  | .str s =>                              -- `x.lower() in ['nan','none','']`
    if lowerChars s.data = "nan".data ∨ lowerChars s.data = "none".data ∨
        s.data = [] then .null
    else .str s

/-- Column dtype as used by the code: it tests `dtype == 'object'` for the
currency coercion and `pd.api.types.is_numeric_dtype` in the chart routes. -/
inductive DType where
  | numeric
  | obj
  | datetimeD
  | cat
deriving DecidableEq, Repr

/-- A named pandas column. -/
structure Column where
  name : String
  dtype : DType
  cells : List RawValue
deriving DecidableEq, Repr

/-- A DataFrame: an ordered list of named columns. -/
def Table := List Column
deriving DecidableEq

/-- Number of rows (length of the first column; all columns of a real
DataFrame have equal length). -/
def nRows (t : Table) : ℕ :=
  match t with
  | [] => 0
  | c :: _ => c.cells.length

/-- `df.dropna(how='all')` keeps row `i` iff some column is non-missing there. -/
def rowAllNA (t : Table) (i : ℕ) : Bool :=
  t.all (fun c => (c.cells.getD i .null).isNA)

def keepIdx (t : Table) : List ℕ :=
  (List.range (nRows t)).filter (fun i => !rowAllNA t i)

def selectRows (idx : List ℕ) (c : Column) : Column :=
  ⟨c.name, c.dtype, idx.filterMap (fun i => c.cells.get? i)⟩

/-- `df = df.dropna(how='all')` (routes.py line 608). -/
def dropAllNullRows (t : Table) : Table :=
  t.map (selectRows (keepIdx t))

/-- Digit list to natural number. -/
def digitsToNat (ds : List Char) : ℕ :=
  ds.foldl (fun a c => 10 * a + (c.toNat - 48)) 0

/-- Parse the body of a decimal float literal (digits, optional point,
optional exponent), as accepted by `pd.to_numeric`'s parser. -/
def parseDecCore (cs : List Char) : Option ℚ :=
  let ip := cs.takeWhile Char.isDigit
  let r1 := cs.dropWhile Char.isDigit
  let fp := match r1 with
    | '.' :: rest => rest.takeWhile Char.isDigit
    | _ => []
  let r2 := match r1 with
    | '.' :: rest => rest.dropWhile Char.isDigit
    | _ => r1
  if ip.isEmpty && fp.isEmpty then none
  else
    let mant : ℚ := (digitsToNat (ip ++ fp) : ℚ) / 10 ^ fp.length
    match r2 with
    | [] => some mant
    | e :: rest =>
      if e = 'e' ∨ e = 'E' then
        let neg := match rest with
          | '-' :: _ => true
          | _ => false
        let rest2 := match rest with
          | '+' :: t => t
          | '-' :: t => t
          | t => t
        let ed := rest2.takeWhile Char.isDigit
        let r3 := rest2.dropWhile Char.isDigit
        if ed.isEmpty ∨ !r3.isEmpty then none
        else if neg then some (mant / 10 ^ digitsToNat ed)
        else some (mant * 10 ^ digitsToNat ed)
      else none

/-- Numeric string parsing as performed by `pd.to_numeric(.., errors='coerce')`
on a character list: a failed parse yields `NaN`; `"inf"`/`"nan"` literals
yield the special floats. -/
def parseFloatChars (cs : List Char) : RawValue :=
  let neg := match cs with
    | '-' :: _ => true
    | _ => false
  let body := match cs with
    | '-' :: t => t
    | '+' :: t => t
    | t => t
  let low := lowerChars body
  if low = "inf".data ∨ low = "infinity".data then
    (if neg then .negInf else .posInf)
  else if low = "nan".data then .nan
  else
    match parseDecCore body with
    | some q => .num (if neg then -q else q)
    | none => .nan

/-- `str.strip`: drop surrounding whitespace. -/
def stripWs (cs : List Char) : List Char :=
  ((cs.dropWhile Char.isWhitespace).reverse.dropWhile Char.isWhitespace).reverse

/-- The per-cell currency strip (routes.py line 615):
`.str.replace('$','').str.replace(',','').str.strip()` — note it removes
*every* `$` and `,`, not only leading/separator ones. -/
def cleanCurrencyChars (cs : List Char) : List Char :=
  stripWs (cs.filter (fun c => !(c = '$' ∨ c = ',')))

/-- String-level view of the currency strip. -/
def cleanCurrency (s : String) : String :=
  ⟨cleanCurrencyChars s.data⟩

/-- String-level view of the numeric parse. -/
def parsePyFloat (s : String) : RawValue :=
  parseFloatChars s.data

/-- One cell of `pd.to_numeric(df[col].astype(str)..., errors='coerce')`
(routes.py lines 615-617).  `str(None) = "None"` and `str(nan) = "nan"`
coerce to `NaN`; numeric cells round-trip through their decimal
representation unchanged. -/
def toNumericCell : RawValue → RawValue
  | .str s => parseFloatChars (cleanCurrencyChars s.data)
  | .null => .nan
  | .nan => .nan
  | .posInf => .posInf
  | .negInf => .negInf
  | .num q => .num q
  | .int n => .num n

/-- The per-column currency coercion (routes.py lines 611-624): only
`object` columns are touched, and the converted column replaces the
original iff not every converted value is missing
(`if not numeric_values.isna().all()`). -/
def coerceMoneyColumn (c : Column) : Column :=
  if c.dtype = .obj then
    let conv := c.cells.map toNumericCell
    if conv.all (fun v => v.isNA) then c
    else ⟨c.name, .numeric, conv⟩
  else c

/-- `df.replace([np.inf, -np.inf], np.nan)` on one column (line 631). -/
def replaceInfCol (c : Column) : Column :=
  ⟨c.name, c.dtype, c.cells.map (fun v =>
    match v with
    | .posInf => .nan
    | .negInf => .nan
    | v => v)⟩

/-- `df[col] = df[col].map(f)` / `.apply(f)`: pandas re-infers the dtype of
the mapped values (`lib.map_infer` with `convert=True`), so in a numeric
column a Python `None` produced by `f` is coerced straight back to `NaN`
(`maybe_convert_objects`); in an object column holding strings the `None`
survives. -/
def seriesMap (f : RawValue → RawValue) (c : Column) : Column :=
  let vs := c.cells.map f
  ⟨c.name, c.dtype,
    if c.dtype = .numeric then vs.map (fun v => if v = .null then .nan else v)
    else vs⟩

/-- The full cleaning pipeline of `upload_file` (routes.py lines 607-665):
drop all-null rows, coerce currency-like object columns, replace `±inf`,
map missing to `None`, then apply `clean_value` everywhere. -/
def cleanTable (t : Table) : Table :=
  let t1 := dropAllNullRows t
  let t2 := t1.map coerceMoneyColumn
  let t3 := t2.map replaceInfCol
  let t4 := t3.map (seriesMap (fun v => if v.isNA then .null else v))
  t4.map (seriesMap clean_value)

/-- Modelled from the spec: §4.3 step 2 says the cleaner strips "a *leading*
'$' and thousands-separator commas and surrounding whitespace".  This
definition follows those words (drop one leading dollar sign, remove commas,
strip whitespace); the source instead removes every `$`. -/
def specStripCurrency (s : String) : String :=
  let cs := match s.data with
    | '$' :: t => t
    | t => t
  ⟨stripWs (cs.filter (fun c => !(c = ',')))⟩

/-- C2: the value normalizer is idempotent on every input —
`clean_value (clean_value x) = clean_value x` for `None`, `NaN`, `±inf`,
finite floats, integers and arbitrary strings.  (It is a pure Lean
function, hence side-effect free by construction.) -/
theorem c2_clean_value_idempotent :
    ∀ v : RawValue, clean_value (clean_value v) = clean_value v := by
  intro v
  cases v with
  | str s =>
    by_cases h : lowerChars s.data = "nan".data ∨ lowerChars s.data = "none".data ∨
        s.data = []
    · simp [clean_value, h]
    · simp [clean_value, h]
  | _ => simp [clean_value]

/-- C3 (code evaluated at the failing input): a numeric column with a missing
value still contains `NaN` after the whole cleaning pipeline.  pandas
re-coerces the `None` produced by the NaN-to-None step and by `clean_value`
straight back to `NaN` when the column dtype is numeric
(`Series.map`/`Series.apply` re-infer the result dtype), so the claimed
invariant "no cell is NaN after cleaning" fails, while the code's own
comments (lines 637, 648, 663) state the NaN removal is exhaustive. -/
theorem c3_nan_survives_cleaning :
    cleanTable [⟨"A", .numeric, [.num 1, .nan]⟩, ⟨"B", .obj, [.str "x", .str "y"]⟩]
      = [⟨"A", .numeric, [.num 1, .nan]⟩, ⟨"B", .obj, [.str "x", .str "y"]⟩] ∧
    ((cleanTable [⟨"A", .numeric, [.num 1, .nan]⟩, ⟨"B", .obj, [.str "x", .str "y"]⟩]).any
      (fun c => c.cells.any (fun v => v = .nan))) = true := by
  constructor
  · decide
  · decide

unseal Rat.mul Rat.inv Rat.add Rat.sub in
/-- C4 counterexample: the claim says the cleaner strips a *leading* `$`;
the code strips every `$`.  On the cell `"1$2"` the spec-worded strip leaves
`"1$2"` (unparseable, so the column would be kept as text), while the code
produces `"12"` and converts the column to the number 12. -/
theorem c4_strip_counterexample :
    cleanCurrency "1$2" = "12" ∧
    specStripCurrency "1$2" = "1$2" ∧
    parsePyFloat (specStripCurrency "1$2") = .nan ∧
    coerceMoneyColumn ⟨"c", .obj, [.str "1$2"]⟩ = ⟨"c", .numeric, [.num 12]⟩ := by
  refine ⟨by decide, by decide, by decide, by decide⟩

unseal Rat.mul Rat.inv Rat.add Rat.sub in
/-- C4 (amended): the cleaner strips *all* dollar signs and commas and
surrounding whitespace from every cell of a text column and attempts
whole-column numeric conversion; the column is replaced by the converted
numeric column iff at least one value converts to a non-missing number
(unparsed entries becoming the missing value `NaN`), otherwise the original
text column is retained unchanged.  An all-`"$1,234.50"` column becomes
numeric 1234.50, and a `"$1,200"`/`"N/A"` column converts with `"N/A"`
becoming missing. -/
theorem c4_money_coercion_amended :
    (∀ nm cells, (∃ v ∈ cells.map toNumericCell, v.isNA = false) →
      coerceMoneyColumn ⟨nm, .obj, cells⟩ = ⟨nm, .numeric, cells.map toNumericCell⟩) ∧
    (∀ nm cells, (∀ v ∈ cells.map toNumericCell, v.isNA = true) →
      coerceMoneyColumn ⟨nm, .obj, cells⟩ = ⟨nm, .obj, cells⟩) ∧
    coerceMoneyColumn ⟨"c", .obj, [.str "$1,234.50", .str "$1,234.50"]⟩
      = ⟨"c", .numeric, [.num (12345/10), .num (12345/10)]⟩ ∧
    coerceMoneyColumn ⟨"c", .obj, [.str "$1,200", .str "N/A"]⟩
      = ⟨"c", .numeric, [.num 1200, .nan]⟩ ∧
    (RawValue.nan).isNA = true := by
  refine ⟨?_, ?_, by decide, by decide, rfl⟩
  · intro nm cells h
    have hall : ((cells.map toNumericCell).all (fun v => v.isNA)) = false := by
      obtain ⟨v, hv, hna⟩ := h
      rcases hB : (cells.map toNumericCell).all (fun v => v.isNA) with _ | _
      · rfl
      · rw [List.all_eq_true] at hB
        exact absurd (hB v hv) (by simp [hna])
    simp [coerceMoneyColumn, hall]
  · intro nm cells h
    have hall : ((cells.map toNumericCell).all (fun v => v.isNA)) = true :=
      List.all_eq_true.mpr h
    simp [coerceMoneyColumn, hall]

unseal Rat.mul Rat.inv Rat.add Rat.sub in
/-- C4 witness: a column with one parseable cell converts; one with no
parseable cell is retained. -/
theorem c4_money_coercion_amended_witness :
    coerceMoneyColumn ⟨"k", .obj, [.str "5"]⟩ = ⟨"k", .numeric, [.num 5]⟩ ∧
    coerceMoneyColumn ⟨"k", .obj, [.str "zz"]⟩ = ⟨"k", .obj, [.str "zz"]⟩ := by
  constructor
  · exact c4_money_coercion_amended.1 "k" [.str "5"] (by decide)
  · exact c4_money_coercion_amended.2.1 "k" [.str "zz"] (by decide)

/-! ### Session cache (`_dataframe_cache`, `_get_dataframe_from_cache`,
`_clean_expired_cache`, and the `upload_file` insertion, routes.py
lines 262-291 and 708-716).  Wall-clock time is modelled in seconds. -/

inductive SessionErr where
  | notFound
  | expired
deriving DecidableEq, Repr

structure CacheEntry where
  df : Table
  filename : String
  created_at : ℕ
  expires_at : ℕ
deriving DecidableEq

def Cache := List (String × CacheEntry)
deriving DecidableEq

/-- `session_id in _dataframe_cache` / `_dataframe_cache[session_id]`. -/
def cacheLookup (c : Cache) (sid : String) : Option CacheEntry :=
  (List.find? (fun p => p.1 == sid) c).map (fun p => p.2)

/-- `_get_dataframe_from_cache` (lines 273-291): absent id fails with the
not-found message; an entry with `expires_at < now` is deleted and fails
with the expired message; otherwise the stored DataFrame is returned. -/
def cacheGet (c : Cache) (sid : String) (now : ℕ) :
    Cache × Except SessionErr Table :=
  match cacheLookup c sid with
  | none => (c, .error .notFound)
  | some e =>
    if e.expires_at < now then
      (List.eraseP (fun p => p.1 == sid) c, .error .expired)
    else (c, .ok e.df)

/-- `_clean_expired_cache` (lines 262-270). -/
def cacheSweep (c : Cache) (now : ℕ) : Cache :=
  List.filter (fun p => !(p.2.expires_at < now)) c

/-- The `upload_file` insertion (lines 708-716): store the entry with
`expires_at = now + 1 hour`, then sweep expired entries. -/
def cachePut (c : Cache) (t : Table) (fn : String) (sid : String) (now : ℕ) :
    Cache :=
  cacheSweep ((sid, ⟨t, fn, now, now + 3600⟩) :: List.eraseP (fun p => p.1 == sid) c) now

theorem lookup_eraseP_of_nodup (c : Cache) (sid : String)
    (hnd : (List.map Prod.fst c).Nodup) :
    cacheLookup (List.eraseP (fun p => p.1 == sid) c) sid = none := by
  induction c with
  | nil => rfl
  | cons p rest ih =>
    rcases hk : (p.1 == sid) with _ | _
    · rw [List.eraseP_cons, hk]
      simp only [cond_false]
      rw [cacheLookup, List.find?_cons, hk]
      exact ih (by simpa using hnd.of_cons)
    · rw [List.eraseP_cons, hk]
      simp only [cond_true]
      have hmem : ∀ q ∈ rest, ¬(q.1 == sid) = true := by
        intro q hq hbeq
        have h1 : p.1 = sid := by simpa using hk
        have h2 : q.1 = sid := by simpa using hbeq
        have hp : p.1 ∈ List.map Prod.fst rest := by
          rw [h1, ← h2]
          exact List.mem_map_of_mem Prod.fst hq
        exact (List.nodup_cons.mp (by simpa using hnd)).1 hp
      rw [cacheLookup, List.find?_eq_none.mpr hmem]
      rfl

/-- C6: session lookup fails with `NotFound` for absent session ids; an
entry whose `expires_at` lies in the past fails with `Expired` and is
evicted by the failed lookup; a lookup strictly before `expires_at` returns
the stored table; and insertion stores `expires_at = created_at + 1 hour`. -/
theorem c6_session_cache_spec :
    (∀ c sid now, cacheLookup c sid = none →
      cacheGet c sid now = (c, .error .notFound)) ∧
    (∀ c sid now e, cacheLookup c sid = some e → e.expires_at < now →
      cacheGet c sid now = (List.eraseP (fun p => p.1 == sid) c, .error .expired)) ∧
    (∀ c sid now e, (List.map Prod.fst c).Nodup → cacheLookup c sid = some e →
      e.expires_at < now → cacheLookup (cacheGet c sid now).1 sid = none) ∧
    (∀ c sid now e, cacheLookup c sid = some e → now < e.expires_at →
      cacheGet c sid now = (c, .ok e.df)) ∧
    (∀ c t fn sid now,
      cacheLookup (cachePut c t fn sid now) sid = some ⟨t, fn, now, now + 3600⟩) := by
  refine ⟨?_, ?_, ?_, ?_, ?_⟩
  · intro c sid now h
    simp [cacheGet, h]
  · intro c sid now e h hexp
    simp [cacheGet, h, hexp]
  · intro c sid now e hnd h hexp
    have : (cacheGet c sid now).1 = List.eraseP (fun p => p.1 == sid) c := by
      simp [cacheGet, h, hexp]
    rw [this]
    exact lookup_eraseP_of_nodup c sid hnd
  · intro c sid now e h hlt
    have : ¬(e.expires_at < now) := by omega
    simp [cacheGet, h, this]
  · intro c t fn sid now
    have hkeep : ¬(now + 3600 < now) := by omega
    simp [cachePut, cacheSweep, cacheLookup, List.filter_cons, hkeep]

/-- C6 witness: a concrete run of the three lookup outcomes and the put. -/
theorem c6_session_cache_spec_witness :
    cacheGet [] "a" 0 = ([], .error .notFound) ∧
    cacheGet [("a", ⟨[], "f", 0, 3600⟩)] "a" 3601
      = ([], .error .expired) ∧
    cacheLookup (cacheGet [("a", ⟨[], "f", 0, 3600⟩)] "a" 3601).1 "a" = none ∧
    cacheGet [("a", ⟨[], "f", 0, 3600⟩)] "a" 3599
      = ([("a", ⟨[], "f", 0, 3600⟩)], .ok []) ∧
    cacheLookup (cachePut [] [] "f" "a" 5) "a" = some ⟨[], "f", 5, 3605⟩ := by
  refine ⟨c6_session_cache_spec.1 [] "a" 0 rfl,
    c6_session_cache_spec.2.1 [("a", ⟨[], "f", 0, 3600⟩)] "a" 3601 ⟨[], "f", 0, 3600⟩ rfl (by decide),
    c6_session_cache_spec.2.2.1 [("a", ⟨[], "f", 0, 3600⟩)] "a" 3601 ⟨[], "f", 0, 3600⟩
      (by decide) rfl (by decide),
    c6_session_cache_spec.2.2.2.1 [("a", ⟨[], "f", 0, 3600⟩)] "a" 3599 ⟨[], "f", 0, 3600⟩ rfl (by decide),
    c6_session_cache_spec.2.2.2.2 [] [] "f" "a" 5⟩

/-! ### Suggestion orchestrator retry contract
(`analyze_dataframe_with_ai`, routes.py lines 21-259).  One call of the
external summarizer — including the JSON parsing and structure validation
performed inside the `try` block — either succeeds with a validated value or
fails with a classified kind.  The classification mirrors the `except`
clauses: `parse` = `json.JSONDecodeError`, `validation` = `ValueError`,
`rateLimit`/`auth`/`transient` = the generic `except Exception` cases. -/

inductive FailKind where
  | parse
  | validation
  | rateLimit
  | auth
  | transient
deriving DecidableEq, Repr

inductive CallOutcome (α : Type) where
  | success (v : α)
  | failure (k : FailKind)

inductive AiErr where
  | analysisFailed
  | rateLimited
  | authFailed
deriving DecidableEq, Repr

/-- Sleep durations: `await asyncio.sleep(5)` for rate limiting, else
`await asyncio.sleep(1)` (lines 195, 206, 239, 241). -/
def delayOf : FailKind → ℕ
  | .rateLimit => 5
  | _ => 1

/-- Terminal error after the retry is exhausted: auth failures surface as
`AuthFailed` (checked first, line 245), rate limiting as `RateLimited`
(line 250), everything else — including `ValueError` and JSON decode
errors — as the generic `AnalysisFailed` (lines 199, 209, 256). -/
def terminalOf : FailKind → AiErr
  | .auth => .authFailed
  | .rateLimit => .rateLimited
  | _ => .analysisFailed

/-- `analyze_dataframe_with_ai(df, name, retry_count)`: attempt the call; on
failure, if `retry_count < 1`, sleep the classified delay and recurse with
`retry_count + 1`; otherwise raise the terminal error.  `f n` is the outcome
of attempt number `n`; the second component records the sleeps performed. -/
def analyzeWithAi {α : Type} (f : ℕ → CallOutcome α) (rc : ℕ) :
    Except AiErr α × List ℕ :=
  match f rc with
  | .success v => (.ok v, [])
  | .failure k =>
    if h : rc < 1 then
      let r := analyzeWithAi f (rc + 1)
      (r.1, delayOf k :: r.2)
    else (.error (terminalOf k), [])
termination_by 1 - rc
decreasing_by omega

/-- C7: the orchestrator retries exactly once after a failed attempt,
sleeping 1 second (5 for rate limiting); fail-then-succeed yields the
successful value; two consecutive failures yield the terminal error
(`RateLimited` for rate limiting, `AuthFailed` for auth failures,
`AnalysisFailed` for parse/validation/other failures); a third attempt is
never made (the result depends only on attempts 0 and 1). -/
theorem c7_retry_spec :
    (∀ (α : Type) (f : ℕ → CallOutcome α) v, f 0 = .success v →
      analyzeWithAi f 0 = (.ok v, [])) ∧
    (∀ (α : Type) (f : ℕ → CallOutcome α) k v,
      f 0 = .failure k → f 1 = .success v →
      analyzeWithAi f 0 = (.ok v, [delayOf k])) ∧
    (∀ (α : Type) (f : ℕ → CallOutcome α) k1 k2,
      f 0 = .failure k1 → f 1 = .failure k2 →
      analyzeWithAi f 0 = (.error (terminalOf k2), [delayOf k1])) ∧
    (delayOf .rateLimit = 5 ∧ ∀ k, k ≠ .rateLimit → delayOf k = 1) ∧
    (terminalOf .rateLimit = .rateLimited ∧ terminalOf .auth = .authFailed ∧
      terminalOf .parse = .analysisFailed ∧
      terminalOf .validation = .analysisFailed ∧
      terminalOf .transient = .analysisFailed) ∧
    (∀ (α : Type) (f g : ℕ → CallOutcome α), f 0 = g 0 → f 1 = g 1 →
      analyzeWithAi f 0 = analyzeWithAi g 0) := by
  refine ⟨?_, ?_, ?_, ⟨rfl, ?_⟩, ⟨rfl, rfl, rfl, rfl, rfl⟩, ?_⟩
  · intro α f v h0
    rw [analyzeWithAi, h0]
  · intro α f k v h0 h1
    rw [analyzeWithAi, h0]
    simp only [Nat.zero_lt_one, dif_pos]
    rw [analyzeWithAi, h1]
  · intro α f k1 k2 h0 h1
    rw [analyzeWithAi, h0]
    simp only [Nat.zero_lt_one, dif_pos]
    rw [analyzeWithAi, h1]
    simp
  · intro k hk
    cases k <;> simp_all [delayOf]
  · intro α f g h0 h1
    have h1' : f (0 + 1) = g (0 + 1) := h1
    rw [analyzeWithAi]
    conv_rhs => rw [analyzeWithAi]
    rw [h0]
    cases hg0 : g 0 with
    | success v => rfl
    | failure k =>
      simp only [Nat.zero_lt_one, dif_pos]
      rw [analyzeWithAi]
      conv_rhs => rw [analyzeWithAi]
      rw [h1']
      cases hg1 : g (0 + 1) with
      | success w => rfl
      | failure k2 => rfl

/-- C7 witness: rate-limit failure then success waits 5 seconds and
succeeds; two auth failures end in `AuthFailed`. -/
theorem c7_retry_spec_witness :
    analyzeWithAi (fun n => if n = 0 then CallOutcome.failure (α := ℕ) .rateLimit
      else .success 7) 0 = (.ok 7, [5]) ∧
    analyzeWithAi (fun _ => CallOutcome.failure (α := ℕ) .auth) 0
      = (.error .authFailed, [1]) := by
  constructor
  · exact c7_retry_spec.2.1 ℕ _ .rateLimit 7 rfl rfl
  · exact c7_retry_spec.2.2.1 ℕ _ .auth .auth rfl rfl

/-! ### Chart aggregation (`get_chart_data`, routes.py lines 299-546).

The chart routes consume the *cleaned* cached table, in which `±inf` was
already replaced by `NaN` (line 631), so numeric columns hold only finite
numbers and missing markers; general theorems carry a no-infinity
hypothesis where the value domain matters. -/

/-- `±inf` test (`np.isinf`). -/
def RawValue.isInf : RawValue → Bool
  | .posInf => true
  | .negInf => true
  | _ => false

/-- Numeric view of a cell under `dropna`: finite numbers survive, missing
markers are dropped. -/
def qOf : RawValue → Option ℚ
  | .num q => some q
  | .int n => some (n : ℚ)
  | _ => none

/-- Value contributed to a pandas `sum()` (skipna: missing counts as 0). -/
def cellQ : RawValue → ℚ
  | .num q => q
  | .int n => (n : ℚ)
  | _ => 0

/-- `Series.duplicated` treats all missing markers as the same key. -/
def normKey (v : RawValue) : RawValue :=
  if v.isNA then .null else v

/-- `df[x].duplicated().any()`. -/
def duplicatedAny (xs : List RawValue) : Bool :=
  !(decide (List.Nodup (xs.map normKey)))

def strOf : RawValue → List Char
  | .str s => s.data
  | _ => []

def charListLe : List Char → List Char → Bool
  | [], _ => true
  | _ :: _, [] => false
  | a :: as, b :: bs => if a = b then charListLe as bs else decide (a.toNat < b.toNat)

/-- Group-key ordering used by `groupby(...).sum()` (pandas sorts group keys
ascending).  Same-kind keys compare naturally; pandas raises on mixed
number/string keys, where this embedding arbitrarily puts numbers first. -/
def rvLe (a b : RawValue) : Bool :=
  match qOf a, qOf b with
  | some x, some y => decide (x ≤ y)
  | some _, none => true
  | none, some _ => false
  | none, none => charListLe (strOf a) (strOf b)

def sortKeys (ks : List RawValue) : List RawValue :=
  List.insertionSort (fun a b => rvLe a b = true) ks

/-- The group keys of `df.groupby(col)`: the distinct non-missing values,
sorted ascending.  Rows whose key is missing belong to no group
(`groupby` drops NaN/None keys). -/
def groupKeys (xs : List RawValue) : List RawValue :=
  sortKeys ((xs.filter (fun v => !v.isNA)).dedup)

/-- `df.groupby(x)[y].sum()` for one key: sum of the y-cells of the rows
whose x-cell equals the key (missing y-values contribute 0, skipna). -/
def sumForKey (xs ys : List RawValue) (k : RawValue) : ℚ :=
  ((xs.zip ys).filter (fun p => p.1 == k)).foldr (fun p acc => cellQ p.2 + acc) 0

/-- `df.groupby(x).size()` for one key: number of rows with that x-cell. -/
def countForKey (xs : List RawValue) (k : RawValue) : ℕ :=
  xs.countP (fun v => v == k)

/-- Python `str(x)`.  The decimal rendering of a float is abstracted by the
rational printer; no claim inspects the text of a numeric label. -/
def pyStr : RawValue → String
  | .str s => s
  | .int n => toString n
  | .num q => toString q
  | .null => "None"
  | .nan => "nan"
  | .posInf => "inf"
  | .negInf => "-inf"

/-- `.fillna("").astype(str)` on one cell. -/
def fillNaStr (v : RawValue) : String :=
  if v.isNA then "" else pyStr v

/-- `.fillna(0)` on one cell. -/
def fillNaZero (v : RawValue) : RawValue :=
  if v.isNA then .int 0 else v

/-- `n_bins = min(30, int(1 + 3.322 * np.log10(n)))` (routes.py line 424),
computed in exact arithmetic: since `3.322 = 1661/500`,
`k ≤ 3.322·log10 n  ↔  10^(500k) ≤ n^1661`, so the `int(...)` floor equals
one plus the number of `k < 30` with `10^(500(k+1)) ≤ n^1661` (the cap at
30 makes the truncated count sufficient). -/
def sturgesBins (n : ℕ) : ℕ :=
  min 30 (1 + ((List.range 30).filter
    (fun k => decide (10 ^ (500 * (k + 1)) ≤ n ^ 1661))).length)

def listMin (a : ℚ) (l : List ℚ) : ℚ := l.foldr min a

def listMax (a : ℚ) (l : List ℚ) : ℚ := l.foldr max a

/-- Bin edge `j` of `np.histogram`: `lo + j*(hi-lo)/nbins`. -/
def histEdge (lo w : ℚ) (j : ℕ) : ℚ := lo + (j : ℚ) * w

/-- Membership of value `x` in bin `j` of `np.histogram`: bins are
half-open `[edge j, edge (j+1))` except the last, which is closed. -/
def inBin (lo w : ℚ) (nbins j : ℕ) (x : ℚ) : Bool :=
  decide (histEdge lo w j ≤ x) &&
    (if j + 1 = nbins then decide (x ≤ histEdge lo w nbins)
     else decide (x < histEdge lo w (j + 1)))

def histCounts (data : List ℚ) (lo w : ℚ) (nbins : ℕ) : List ℕ :=
  (List.range nbins).map (fun j => data.countP (inBin lo w nbins j))

def histBinEdges (lo w : ℚ) (nbins : ℕ) : List ℚ :=
  (List.range (nbins + 1)).map (histEdge lo w)

/-- `[(bins[i] + bins[i+1]) / 2 for i in range(len(bins)-1)]` (line 428). -/
def midpoints : List ℚ → List ℚ
  | a :: b :: rest => (a + b) / 2 :: midpoints (b :: rest)
  | _ => []

/-- `Series.quantile(p)` with the default linear interpolation between
order statistics. -/
def quantileLin (l : List ℚ) (p : ℚ) : ℚ :=
  let s := List.insertionSort (fun a b : ℚ => a ≤ b) l
  let n := s.length
  let x := p * ((n : ℚ) - 1)
  let i := (Int.floor x).toNat
  let a := s.getD i 0
  let b := s.getD (i + 1) a
  a + (x - (i : ℚ)) * (b - a)

/-- Chart-aggregation errors: `invalidParams` and `invalidColumnType` are
the HTTP 400 client errors of the spec taxonomy, distinguished in the
source only by message text; `internalError` is the generic HTTP 500
produced by the catch-all `except Exception` handler (routes.py line 542)
when a pandas operation inside a branch raises, e.g. the duplicate-column
`ValueError` of `reset_index` when both grouping roles name the same
column. -/
inductive ChartErr where
  | invalidParams
  | invalidColumnType
  | internalError
deriving DecidableEq, Repr

/-- HTTP status category of a chart error. -/
def ChartErr.status : ChartErr → ℕ
  | .invalidParams => 400
  | .invalidColumnType => 400
  | .internalError => 500

inductive ChartType where
  | bar
  | line
  | pie
  | scatter
  | histogram
  | box
  | heatmap
  | area
deriving DecidableEq, Repr

structure XYPayload where
  labels : List RawValue
  values : List RawValue
  x_axis : String
  y_axis : String
deriving DecidableEq

structure PiePayload where
  labels : List String
  values : List RawValue
deriving DecidableEq

structure HistPayload where
  bins : List ℚ
  counts : List ℕ
  column : String
deriving DecidableEq

structure BoxRec where
  category : String
  q1 : ℚ
  median : ℚ
  q3 : ℚ
  min : ℚ
  max : ℚ
  lower_whisker : ℚ
  upper_whisker : ℚ
  outliers : List ℚ
deriving DecidableEq

structure BoxPayload where
  data : List BoxRec
  x_axis : String
  y_axis : String
deriving DecidableEq

structure HeatPayload where
  rows : List RawValue
  columns : List RawValue
  values : List (List ℚ)
deriving DecidableEq

inductive ChartPayload where
  | xy (p : XYPayload)
  | pie (p : PiePayload)
  | hist (p : HistPayload)
  | box (p : BoxPayload)
  | heat (p : HeatPayload)
deriving DecidableEq

deriving instance DecidableEq for Except

/-- The request's `parameters` dict (string to string). -/
def Params := List (String × String)

/-- `parameters.get(r)` combined with Python truthiness: the code treats
both a missing key and an empty string as absent (`if not x_axis`). -/
def getParam (ps : Params) (r : String) : Option String :=
  match (List.find? (fun p => p.1 == r) ps).map (fun p => p.2) with
  | some s => if s = "" then none else some s
  | none => none

/-- `name in df.columns` / `df[name]`. -/
def findCol (t : Table) (nm : String) : Option Column :=
  List.find? (fun c => c.name == nm) t

/-- Resolve one required role: the branch's `if not r: 400` and
`if r not in df.columns: 400` checks collapse to one lookup because both
failure modes raise the same `InvalidParameters` (400) error. -/
def resolve1 (t : Table) (ps : Params) (r : String) : Option (String × Column) :=
  match getParam ps r with
  | some nm => (findCol t nm).map (fun c => (nm, c))
  | none => none

def resolve2 (t : Table) (ps : Params) (r1 r2 : String) :
    Option ((String × Column) × (String × Column)) :=
  match resolve1 t ps r1, resolve1 t ps r2 with
  | some a, some b => some (a, b)
  | _, _ => none

def resolve3 (t : Table) (ps : Params) (r1 r2 r3 : String) :
    Option ((String × Column) × (String × Column) × (String × Column)) :=
  match resolve1 t ps r1, resolve1 t ps r2, resolve1 t ps r3 with
  | some a, some b, some c => some (a, b, c)
  | _, _, _ => none

/-- The `bar`/`line`/`scatter`/`area` branch (routes.py lines 326-363).
In the duplicated-x branch the code runs
`df.groupby(x_axis)[y_axis].sum().reset_index()` (or
`.size().reset_index(name=y_axis)`); when both roles name the same column,
`reset_index` raises `ValueError: cannot insert <col>, already exists`,
which the catch-all handler (line 542) surfaces as the generic 500
error. -/
def xyBranch (t : Table) (ps : Params) : Except ChartErr ChartPayload :=
  match resolve2 t ps "x_axis" "y_axis" with
  | none => .error .invalidParams
  | some ((x, cx), (y, cy)) =>
    if duplicatedAny cx.cells then
      if x = y then .error .internalError
      else if cy.dtype = .numeric then
        .ok (.xy ⟨groupKeys cx.cells,
          (groupKeys cx.cells).map (fun k => .num (sumForKey cx.cells cy.cells k)),
          x, y⟩)
      else
        .ok (.xy ⟨groupKeys cx.cells,
          (groupKeys cx.cells).map (fun k => .int (countForKey cx.cells k)), x, y⟩)
    else
      .ok (.xy ⟨cx.cells.map (fun v => .str (fillNaStr v)),
        cy.cells.map fillNaZero, x, y⟩)

/-- The `pie` branch (routes.py lines 365-391): always groups by the
labels column via `groupby(labels)[values]...reset_index()`, so when the
two roles name the same column `reset_index` raises the duplicate-column
`ValueError`, surfaced by the catch-all handler as the generic 500. -/
def pieBranch (t : Table) (ps : Params) : Except ChartErr ChartPayload :=
  match resolve2 t ps "labels" "values" with
  | none => .error .invalidParams
  | some ((lbl, cl), (vals, cv)) =>
    if lbl = vals then .error .internalError
    else
    let keys := groupKeys cl.cells
    if cv.dtype = .numeric then
      .ok (.pie ⟨keys.map pyStr,
        keys.map (fun k => .num (sumForKey cl.cells cv.cells k))⟩)
    else
      .ok (.pie ⟨keys.map pyStr,
        keys.map (fun k => .int (countForKey cl.cells k))⟩)

/-- The `histogram` branch (routes.py lines 393-434). -/
def histBranch (t : Table) (ps : Params) : Except ChartErr ChartPayload :=
  match resolve1 t ps "column" with
  | none => .error .invalidParams
  | some (colName, c) =>
    if c.dtype ≠ .numeric then .error .invalidColumnType
    else
      match c.cells.filterMap qOf with
      | [] => .error .invalidParams
      | d :: rest =>
        let data := d :: rest
        let nbins := sturgesBins data.length
        let mn := listMin d rest
        let mx := listMax d rest
        let lo := if mn = mx then mn - 1/2 else mn
        let hi := if mn = mx then mx + 1/2 else mx
        let w := (hi - lo) / (nbins : ℚ)
        .ok (.hist ⟨midpoints (histBinEdges lo w nbins),
          histCounts data lo w nbins, colName⟩)

/-- `Series.unique()` keeps the *first* occurrence of each value, in order
of appearance (structural accumulator so the kernel can evaluate it). -/
def uniqueFirstAux (seen : List RawValue) : List RawValue → List RawValue
  | [] => []
  | v :: rest =>
    if v ∈ seen then uniqueFirstAux seen rest
    else v :: uniqueFirstAux (v :: seen) rest

/-- `df[x].dropna().unique()` order: distinct values, first-seen first. -/
def uniqueFirst (l : List RawValue) : List RawValue :=
  uniqueFirstAux [] l

/-- The `box` branch (routes.py lines 436-487); categories iterate in the
first-appearance order of `df[x].dropna().unique()`. -/
def boxBranch (t : Table) (ps : Params) : Except ChartErr ChartPayload :=
  match resolve2 t ps "x_axis" "y_axis" with
  | none => .error .invalidParams
  | some ((x, cx), (y, cy)) =>
    if cy.dtype ≠ .numeric then .error .invalidColumnType
    else
      let cats := uniqueFirst (cx.cells.filter (fun v => !v.isNA))
      let recs := cats.filterMap (fun cat =>
        let ydata := ((cx.cells.zip cy.cells).filter
          (fun p => p.1 == cat)).filterMap (fun p => qOf p.2)
        match ydata with
        | [] => none
        | d :: rest =>
          let q1 := quantileLin ydata (1/4)
          let q2 := quantileLin ydata (1/2)
          let q3 := quantileLin ydata (3/4)
          let iqr := q3 - q1
          let mn := listMin d rest
          let mx := listMax d rest
          let lw := max mn (q1 - 3/2 * iqr)
          let uw := min mx (q3 + 3/2 * iqr)
          some ⟨pyStr cat, q1, q2, q3, mn, mx, lw, uw,
            ydata.filter (fun v => decide (v < lw) || decide (uw < v))⟩)
      .ok (.box ⟨recs, x, y⟩)

/-- The `heatmap` branch (routes.py lines 489-526): pivot with sorted
distinct non-missing keys, cells summed, absent combinations 0.  When the
row and column roles name the same column, `pivot_table` raises
(`Grouper for '<col>' not 1-dimensional`), surfaced by the catch-all
handler as the generic 500. -/
def heatBranch (t : Table) (ps : Params) : Except ChartErr ChartPayload :=
  match resolve3 t ps "rows" "columns" "values" with
  | none => .error .invalidParams
  | some ((rn, cr), (cn, cc), (_, cv)) =>
    if cv.dtype ≠ .numeric then .error .invalidColumnType
    else if rn = cn then .error .internalError
    else
      let rkeys := groupKeys cr.cells
      let ckeys := groupKeys cc.cells
      .ok (.heat ⟨rkeys, ckeys,
        rkeys.map (fun rk =>
          ckeys.map (fun ck =>
            (((cr.cells.zip cc.cells).zip cv.cells).filter
              (fun p => p.1.1 == rk && p.1.2 == ck)).foldr
              (fun p acc => cellQ p.2 + acc) 0))⟩)

/-- `get_chart_data` aggregation dispatch on a cached table. -/
def chartData (t : Table) (ct : ChartType) (ps : Params) :
    Except ChartErr ChartPayload :=
  match ct with
  | .bar => xyBranch t ps
  | .line => xyBranch t ps
  | .scatter => xyBranch t ps
  | .area => xyBranch t ps
  | .pie => pieBranch t ps
  | .histogram => histBranch t ps
  | .box => boxBranch t ps
  | .heatmap => heatBranch t ps

/-- The required parameter roles of each chart type. -/
def requiredRoles : ChartType → List String
  | .bar => ["x_axis", "y_axis"]
  | .line => ["x_axis", "y_axis"]
  | .scatter => ["x_axis", "y_axis"]
  | .area => ["x_axis", "y_axis"]
  | .pie => ["labels", "values"]
  | .histogram => ["column"]
  | .box => ["x_axis", "y_axis"]
  | .heatmap => ["rows", "columns", "values"]

unseal Rat.mul Rat.inv Rat.add Rat.sub in
/-- C8 counterexample: the claim quantifies over *every* bar/line/scatter/
area request with a duplicated x-column, but when `x_axis` and `y_axis`
name the same column the code's `groupby(...).sum()/.size()` followed by
`reset_index` raises `ValueError: cannot insert <col>, already exists`,
which the catch-all handler turns into an HTTP 500 — not the grouped
payload the claim promises. -/
theorem c8_same_column_counterexample :
    duplicatedAny [RawValue.num 1, .num 1, .num 2] = true ∧
    chartData [⟨"c", .numeric, [.num 1, .num 1, .num 2]⟩] .bar
        [("x_axis", "c"), ("y_axis", "c")] = .error .internalError ∧
    ChartErr.status .internalError = 500 := by
  refine ⟨by decide, by decide, rfl⟩

unseal Rat.mul Rat.inv Rat.add Rat.sub in
/-- C8 (amended): for bar/line/scatter/area requests whose `x_axis` and
`y_axis` parameters name distinct columns, a duplicated x-column makes the
aggregator group by x and sum the y-values when y is numeric (else count
rows per group); when both roles name the same duplicated column the
request instead fails with the generic 500 server error (`reset_index`
duplicate-column `ValueError`); without duplicates the values pass through
as-is, x rendered as strings (missing to `""`) and missing y replaced by
0; on x = ["a","a","b"], y = [10,20,5] the grouped sums are labels
["a","b"], values [30,5]. -/
theorem c8_xy_aggregation_spec :
    (∀ t ct ps x y cx cy,
      (ct = .bar ∨ ct = .line ∨ ct = .scatter ∨ ct = .area) →
      getParam ps "x_axis" = some x → getParam ps "y_axis" = some y →
      findCol t x = some cx → findCol t y = some cy →
      duplicatedAny cx.cells = true → x ≠ y →
      (cy.dtype = .numeric →
        chartData t ct ps = .ok (.xy ⟨groupKeys cx.cells,
          (groupKeys cx.cells).map (fun k => .num (sumForKey cx.cells cy.cells k)),
          x, y⟩)) ∧
      (cy.dtype ≠ .numeric →
        chartData t ct ps = .ok (.xy ⟨groupKeys cx.cells,
          (groupKeys cx.cells).map (fun k => .int (countForKey cx.cells k)),
          x, y⟩))) ∧
    (∀ t ct ps x cx,
      (ct = .bar ∨ ct = .line ∨ ct = .scatter ∨ ct = .area) →
      getParam ps "x_axis" = some x → getParam ps "y_axis" = some x →
      findCol t x = some cx →
      duplicatedAny cx.cells = true →
      chartData t ct ps = .error .internalError) ∧
    (∀ t ct ps x y cx cy,
      (ct = .bar ∨ ct = .line ∨ ct = .scatter ∨ ct = .area) →
      getParam ps "x_axis" = some x → getParam ps "y_axis" = some y →
      findCol t x = some cx → findCol t y = some cy →
      duplicatedAny cx.cells = false →
      chartData t ct ps = .ok (.xy ⟨cx.cells.map (fun v => .str (fillNaStr v)),
        cy.cells.map fillNaZero, x, y⟩)) ∧
    chartData [⟨"x", .obj, [.str "a", .str "a", .str "b"]⟩,
        ⟨"y", .numeric, [.num 10, .num 20, .num 5]⟩] .bar
        [("x_axis", "x"), ("y_axis", "y")]
      = .ok (.xy ⟨[.str "a", .str "b"], [.num 30, .num 5], "x", "y"⟩) := by
  refine ⟨?_, ?_, ?_, by decide⟩
  · intro t ct ps x y cx cy hct hgx hgy hfx hfy hdup hxy
    have hroute : chartData t ct ps = xyBranch t ps := by
      rcases hct with rfl | rfl | rfl | rfl <;> rfl
    constructor
    · intro hnum
      rw [hroute]
      simp [xyBranch, resolve2, resolve1, hgx, hgy, hfx, hfy, hdup, hxy, hnum]
    · intro hnum
      rw [hroute]
      simp [xyBranch, resolve2, resolve1, hgx, hgy, hfx, hfy, hdup, hxy, hnum]
  · intro t ct ps x cx hct hgx hgy hfx hdup
    have hroute : chartData t ct ps = xyBranch t ps := by
      rcases hct with rfl | rfl | rfl | rfl <;> rfl
    rw [hroute]
    simp [xyBranch, resolve2, resolve1, hgx, hgy, hfx, hdup]
  · intro t ct ps x y cx cy hct hgx hgy hfx hfy hdup
    have hroute : chartData t ct ps = xyBranch t ps := by
      rcases hct with rfl | rfl | rfl | rfl <;> rfl
    rw [hroute]
    simp [xyBranch, resolve2, resolve1, hgx, hgy, hfx, hfy, hdup]

unseal Rat.mul Rat.inv Rat.add Rat.sub in
/-- C8 witness: a duplicated text x-column with non-numeric y is counted
per group; a request grouping a duplicated column onto itself fails with
the 500 error; a duplicate-free request passes values through. -/
theorem c8_xy_aggregation_spec_witness :
    chartData [⟨"x", .obj, [.str "u", .str "u"]⟩, ⟨"y", .obj, [.str "p", .str "q"]⟩]
        .line [("x_axis", "x"), ("y_axis", "y")]
      = .ok (.xy ⟨groupKeys [.str "u", .str "u"],
        (groupKeys [.str "u", .str "u"]).map
          (fun k => .int (countForKey [.str "u", .str "u"] k)), "x", "y"⟩) ∧
    chartData [⟨"x", .obj, [.str "u", .str "u"]⟩] .scatter
        [("x_axis", "x"), ("y_axis", "x")] = .error .internalError ∧
    chartData [⟨"x", .obj, [.str "u", .str "w"]⟩, ⟨"y", .numeric, [.num 1, .nan]⟩]
        .area [("x_axis", "x"), ("y_axis", "y")]
      = .ok (.xy ⟨[.str "u", .str "w"].map (fun v => .str (fillNaStr v)),
        [.num 1, .nan].map fillNaZero, "x", "y"⟩) := by
  refine ⟨?_, ?_, ?_⟩
  · exact (c8_xy_aggregation_spec.1
      [⟨"x", .obj, [.str "u", .str "u"]⟩, ⟨"y", .obj, [.str "p", .str "q"]⟩]
      .line [("x_axis", "x"), ("y_axis", "y")] "x" "y"
      ⟨"x", .obj, [.str "u", .str "u"]⟩ ⟨"y", .obj, [.str "p", .str "q"]⟩
      (Or.inr (Or.inl rfl)) (by decide) (by decide) (by decide) (by decide)
      (by decide) (by decide)).2 (by decide)
  · exact c8_xy_aggregation_spec.2.1
      [⟨"x", .obj, [.str "u", .str "u"]⟩] .scatter
      [("x_axis", "x"), ("y_axis", "x")] "x" ⟨"x", .obj, [.str "u", .str "u"]⟩
      (Or.inr (Or.inr (Or.inl rfl))) (by decide) (by decide) (by decide)
      (by decide)
  · exact c8_xy_aggregation_spec.2.2.1
      [⟨"x", .obj, [.str "u", .str "w"]⟩, ⟨"y", .numeric, [.num 1, .nan]⟩]
      .area [("x_axis", "x"), ("y_axis", "y")] "x" "y"
      ⟨"x", .obj, [.str "u", .str "w"]⟩ ⟨"y", .numeric, [.num 1, .nan]⟩
      (Or.inr (Or.inr (Or.inr rfl))) (by decide) (by decide) (by decide)
      (by decide) (by decide)

theorem sum_map_add {α : Type} (f g : α → ℕ) (l : List α) :
    (l.map (fun a => f a + g a)).sum = (l.map f).sum + (l.map g).sum := by
  induction l with
  | nil => rfl
  | cons a l ih => simp [ih]; omega

theorem sum_indicator_of_nodup (ks : List RawValue) (v : RawValue)
    (hnd : ks.Nodup) (hv : v ∈ ks) :
    (ks.map (fun k => if (v == k) = true then 1 else 0)).sum = 1 := by
  induction ks with
  | nil => cases hv
  | cons k rest ih =>
    rw [List.map_cons, List.sum_cons]
    rcases List.mem_cons.mp hv with rfl | hvr
    · have hrest : (rest.map (fun k => if (v == k) = true then 1 else 0)).sum = 0 := by
        apply List.sum_eq_zero
        intro x hx
        obtain ⟨w, hw, hxw⟩ := List.mem_map.mp hx
        have hvw : ¬(v == w) = true := fun hb =>
          (List.nodup_cons.mp hnd).1 ((eq_of_beq hb) ▸ hw)
        rw [if_neg hvw] at hxw
        omega
      rw [hrest, if_pos (beq_self_eq_true v)]
    · have hvk : ¬(v == k) = true := fun hb =>
        (List.nodup_cons.mp hnd).1 ((eq_of_beq hb) ▸ hvr)
      rw [if_neg hvk, ih (List.nodup_cons.mp hnd).2 hvr]

theorem sum_count_keys (l ks : List RawValue) (hnd : ks.Nodup)
    (hcov : ∀ v ∈ l, v ∈ ks) :
    (ks.map (fun k => l.countP (fun v => v == k))).sum = l.length := by
  induction l with
  | nil => simp
  | cons v rest ih =>
    have hv : v ∈ ks := hcov v (List.mem_cons_self v rest)
    have hrest : ∀ w ∈ rest, w ∈ ks := fun w hw => hcov w (List.mem_cons_of_mem _ hw)
    simp only [List.countP_cons]
    rw [sum_map_add (fun k => rest.countP (fun w => w == k))
      (fun k => if (v == k) = true then 1 else 0), ih hrest,
      sum_indicator_of_nodup ks v hnd hv, List.length_cons]

theorem countP_beq_filter_nonNA (xs : List RawValue) (k : RawValue)
    (hk : k.isNA = false) :
    xs.countP (fun v => v == k)
      = (xs.filter (fun v => !v.isNA)).countP (fun v => v == k) := by
  induction xs with
  | nil => rfl
  | cons v rest ih =>
    rcases hbeq : (v == k) with _ | _
    · cases hvna : v.isNA <;>
        simp [List.countP_cons, List.filter_cons, hvna, hbeq, ih]
    · have hv : v = k := eq_of_beq hbeq
      subst hv
      simp [List.countP_cons, List.filter_cons, hk, hbeq, ih]

/-- C9 counterexample: a bar request over x = [null,"a","a"] (duplicated,
non-numeric y so groups are counted) succeeds with a single group of size
2, while the table has 3 rows: the row with the missing grouping cell
contributes to no output group and no typed error is raised. -/
theorem c9_null_rows_counterexample :
    chartData [⟨"x", .obj, [.null, .str "a", .str "a"]⟩,
        ⟨"y", .obj, [.str "p", .str "q", .str "r"]⟩] .bar
        [("x_axis", "x"), ("y_axis", "y")]
      = .ok (.xy ⟨[.str "a"], [.int 2], "x", "y"⟩) ∧
    nRows [⟨"x", .obj, [.null, .str "a", .str "a"]⟩,
        ⟨"y", .obj, [.str "p", .str "q", .str "r"]⟩] = 3 ∧
    ((groupKeys [.null, .str "a", .str "a"]).map
      (fun k => countForKey [.null, .str "a", .str "a"] k)).sum = 2 := by
  refine ⟨by decide, by decide, by decide⟩

/-- C9 (amended): grouped aggregation partitions exactly the rows whose
grouping cell is non-missing — the group keys are the distinct non-missing
values, every row with a non-missing key belongs to a group, and the group
sizes sum to the number of those rows; rows with a missing grouping cell
are silently dropped by `groupby` (no group, no error). -/
theorem c9_grouping_partition_amended :
    ∀ xs : List RawValue,
      (groupKeys xs).Nodup ∧
      (∀ k ∈ groupKeys xs, k.isNA = false) ∧
      (∀ v ∈ xs, v.isNA = false → v ∈ groupKeys xs) ∧
      ((groupKeys xs).map (fun k => countForKey xs k)).sum
        = (xs.filter (fun v => !v.isNA)).length := by
  intro xs
  have hperm : List.Perm (groupKeys xs) ((xs.filter (fun v => !v.isNA)).dedup) :=
    List.perm_insertionSort _ _
  have hnd : (groupKeys xs).Nodup :=
    hperm.nodup_iff.mpr (List.nodup_dedup _)
  have hmemkeys : ∀ k, k ∈ groupKeys xs ↔ k ∈ (xs.filter (fun v => !v.isNA)).dedup :=
    fun k => hperm.mem_iff
  refine ⟨hnd, ?_, ?_, ?_⟩
  · intro k hk
    have : k ∈ xs.filter (fun v => !v.isNA) :=
      List.mem_dedup.mp ((hmemkeys k).mp hk)
    have := List.of_mem_filter this
    simpa using this
  · intro v hv hvna
    apply (hmemkeys v).mpr
    exact List.mem_dedup.mpr (List.mem_filter.mpr ⟨hv, by simp [hvna]⟩)
  · have hcongr : (groupKeys xs).map (fun k => countForKey xs k)
        = (groupKeys xs).map
          (fun k => (xs.filter (fun v => !v.isNA)).countP (fun v => v == k)) := by
      apply List.map_congr_left
      intro k hk
      have hkna : k.isNA = false := by
        have : k ∈ xs.filter (fun v => !v.isNA) :=
          List.mem_dedup.mp ((hmemkeys k).mp hk)
        simpa using List.of_mem_filter this
      exact countP_beq_filter_nonNA xs k hkna
    rw [hcongr]
    have hsum := (hperm.map
      (fun k => (xs.filter (fun v => !v.isNA)).countP (fun v => v == k))).sum_eq
    rw [hsum]
    apply sum_count_keys
    · exact List.nodup_dedup _
    · intro v hv
      exact List.mem_dedup.mpr hv

/-- C9 amended witness: on x = [null,"a","a"] the keys are nodup, "a" is a
key, and the group sizes sum to the 2 non-missing rows. -/
theorem c9_grouping_partition_amended_witness :
    (groupKeys [.null, .str "a", .str "a"]).Nodup ∧
    (RawValue.str "a") ∈ groupKeys [.null, .str "a", .str "a"] ∧
    ((groupKeys [.null, .str "a", .str "a"]).map
      (fun k => countForKey [.null, .str "a", .str "a"] k)).sum = 2 := by
  obtain ⟨h1, _, h3, h4⟩ :=
    c9_grouping_partition_amended [.null, .str "a", .str "a"]
  exact ⟨h1, h3 _ (by decide) (by decide), h4.trans (by decide)⟩

theorem resolve1_none_of (t : Table) (ps : Params) (r : String)
    (h : getParam ps r = none ∨
      ∃ nm, getParam ps r = some nm ∧ findCol t nm = none) :
    resolve1 t ps r = none := by
  rcases h with h | ⟨nm, h1, h2⟩
  · simp [resolve1, h]
  · simp [resolve1, h1, h2]

theorem resolve2_none {t : Table} {ps : Params} {r1 r2 : String}
    (h : resolve1 t ps r1 = none ∨ resolve1 t ps r2 = none) :
    resolve2 t ps r1 r2 = none := by
  rcases h with h | h
  · simp [resolve2, h]
  · cases h1 : resolve1 t ps r1 <;> simp [resolve2, h1, h]

theorem resolve3_none {t : Table} {ps : Params} {r1 r2 r3 : String}
    (h : resolve1 t ps r1 = none ∨ resolve1 t ps r2 = none ∨
      resolve1 t ps r3 = none) :
    resolve3 t ps r1 r2 r3 = none := by
  rcases h with h | h | h
  · simp [resolve3, h]
  · cases h1 : resolve1 t ps r1 <;> simp [resolve3, h1, h]
  · cases h1 : resolve1 t ps r1 <;> cases h2 : resolve1 t ps r2 <;>
      simp [resolve3, h1, h2, h]

/-- Shape of the C10 hypothesis for one role list. -/
def rolesFail (t : Table) (ps : Params) (rs : List String) : Prop :=
  (∃ r ∈ rs, getParam ps r = none) ∨
    (∃ r ∈ rs, ∃ nm, getParam ps r = some nm ∧ findCol t nm = none)

theorem rolesFail_resolve1 {t : Table} {ps : Params} {r : String}
    (h : rolesFail t ps [r]) : resolve1 t ps r = none := by
  apply resolve1_none_of
  rcases h with ⟨r', hr, hnone⟩ | ⟨r', hr, nm, hsome, hnf⟩
  · rcases List.mem_cons.mp hr with rfl | hr2
    · exact Or.inl hnone
    · exact absurd hr2 (List.not_mem_nil r')
  · rcases List.mem_cons.mp hr with rfl | hr2
    · exact Or.inr ⟨nm, hsome, hnf⟩
    · exact absurd hr2 (List.not_mem_nil r')

theorem rolesFail_resolve2 {t : Table} {ps : Params} {r1 r2 : String}
    (h : rolesFail t ps [r1, r2]) : resolve2 t ps r1 r2 = none := by
  apply resolve2_none
  rcases h with ⟨r', hr, hnone⟩ | ⟨r', hr, nm, hsome, hnf⟩
  · rcases List.mem_cons.mp hr with rfl | hr2
    · exact Or.inl (resolve1_none_of t ps r' (Or.inl hnone))
    · rcases List.mem_cons.mp hr2 with rfl | hr3
      · exact Or.inr (resolve1_none_of t ps r' (Or.inl hnone))
      · exact absurd hr3 (List.not_mem_nil r')
  · rcases List.mem_cons.mp hr with rfl | hr2
    · exact Or.inl (resolve1_none_of t ps r' (Or.inr ⟨nm, hsome, hnf⟩))
    · rcases List.mem_cons.mp hr2 with rfl | hr3
      · exact Or.inr (resolve1_none_of t ps r' (Or.inr ⟨nm, hsome, hnf⟩))
      · exact absurd hr3 (List.not_mem_nil r')

theorem rolesFail_resolve3 {t : Table} {ps : Params} {r1 r2 r3 : String}
    (h : rolesFail t ps [r1, r2, r3]) : resolve3 t ps r1 r2 r3 = none := by
  apply resolve3_none
  rcases h with ⟨r', hr, hnone⟩ | ⟨r', hr, nm, hsome, hnf⟩
  · rcases List.mem_cons.mp hr with rfl | hr2
    · exact Or.inl (resolve1_none_of t ps r' (Or.inl hnone))
    · rcases List.mem_cons.mp hr2 with rfl | hr3
      · exact Or.inr (Or.inl (resolve1_none_of t ps r' (Or.inl hnone)))
      · rcases List.mem_cons.mp hr3 with rfl | hr4
        · exact Or.inr (Or.inr (resolve1_none_of t ps r' (Or.inl hnone)))
        · exact absurd hr4 (List.not_mem_nil r')
  · rcases List.mem_cons.mp hr with rfl | hr2
    · exact Or.inl (resolve1_none_of t ps r' (Or.inr ⟨nm, hsome, hnf⟩))
    · rcases List.mem_cons.mp hr2 with rfl | hr3
      · exact Or.inr (Or.inl (resolve1_none_of t ps r' (Or.inr ⟨nm, hsome, hnf⟩)))
      · rcases List.mem_cons.mp hr3 with rfl | hr4
        · exact Or.inr (Or.inr (resolve1_none_of t ps r' (Or.inr ⟨nm, hsome, hnf⟩)))
        · exact absurd hr4 (List.not_mem_nil r')

/-- C10: for every chart type and parameters mapping, omitting a required
role (missing key or empty string, per Python truthiness) or naming a
column absent from the table makes the aggregation return the
`InvalidParameters` client error (HTTP 400); `chartData` is a total Lean
function, so no input raises an unhandled exception. -/
theorem c10_invalid_params_safety :
    ∀ (ct : ChartType) (t : Table) (ps : Params),
      rolesFail t ps (requiredRoles ct) →
      chartData t ct ps = .error .invalidParams ∧
      (ChartErr.invalidParams).status = 400 := by
  intro ct t ps h
  refine ⟨?_, rfl⟩
  cases ct with
  | bar => simp [chartData, xyBranch, rolesFail_resolve2 h]
  | line => simp [chartData, xyBranch, rolesFail_resolve2 h]
  | scatter => simp [chartData, xyBranch, rolesFail_resolve2 h]
  | area => simp [chartData, xyBranch, rolesFail_resolve2 h]
  | pie => simp [chartData, pieBranch, rolesFail_resolve2 h]
  | histogram => simp [chartData, histBranch, rolesFail_resolve1 h]
  | box => simp [chartData, boxBranch, rolesFail_resolve2 h]
  | heatmap => simp [chartData, heatBranch, rolesFail_resolve3 h]

/-- C10 witness: a bar request missing `y_axis` and a histogram naming an
absent column both fail with `InvalidParameters`. -/
theorem c10_invalid_params_safety_witness :
    (chartData [⟨"x", .obj, [.str "a"]⟩] .bar [("x_axis", "x")]
      = .error .invalidParams ∧ (ChartErr.invalidParams).status = 400) ∧
    chartData [⟨"x", .obj, [.str "a"]⟩] .histogram [("column", "zz")]
      = .error .invalidParams := by
  refine ⟨c10_invalid_params_safety .bar [⟨"x", .obj, [.str "a"]⟩]
    [("x_axis", "x")] (Or.inl ⟨"y_axis", by decide, by decide⟩),
    (c10_invalid_params_safety .histogram [⟨"x", .obj, [.str "a"]⟩]
    [("column", "zz")] (Or.inr ⟨"column", by decide, "zz", by decide, by decide⟩)).1⟩

unseal Rat.mul Rat.inv Rat.add Rat.sub in
/-- C1 counterexample: on the box request over one category with y-values
[1,2,3,4,5,100] the aggregator serves q3 = 4.75 (the linear interpolation
at position 0.75·(6−1) = 3.75 lies between the order statistics 4 and 5),
not 4.25 as the claim states. -/
theorem c1_q3_counterexample :
    quantileLin [1, 2, 3, 4, 5, 100] (3/4) = 19/4 ∧
    chartData [⟨"cat", .obj,
        [.str "g", .str "g", .str "g", .str "g", .str "g", .str "g"]⟩,
      ⟨"val", .numeric, [.num 1, .num 2, .num 3, .num 4, .num 5, .num 100]⟩]
      .box [("x_axis", "cat"), ("y_axis", "val")]
      = .ok (.box ⟨[⟨"g", 9/4, 7/2, 19/4, 1, 100, 1, 17/2, [100]⟩],
        "cat", "val"⟩) ∧
    ¬((19 : ℚ)/4 = 17/4) := by
  refine ⟨by decide, by decide, by decide⟩

unseal Rat.mul Rat.inv Rat.add Rat.sub in
/-- C1 (amended): for a box request over a single category with y-values
[1,2,3,4,5,100], the aggregator computes q1 = 2.25, median = 3.5,
q3 = 4.75 by linear interpolation; the upper whisker is clamped to
min(true max, q3 + 1.5·IQR) = min(100, 8.5) = 8.5, and 100 lies above it,
so 100 is reported in the outliers list and not as the whisker maximum
(the whisker maximum is 8.5; the `max` field stays the true maximum 100). -/
theorem c1_box_aggregation_amended :
    quantileLin [1, 2, 3, 4, 5, 100] (1/4) = 9/4 ∧
    quantileLin [1, 2, 3, 4, 5, 100] (1/2) = 7/2 ∧
    quantileLin [1, 2, 3, 4, 5, 100] (3/4) = 19/4 ∧
    min (100 : ℚ) (19/4 + 3/2 * (19/4 - 9/4)) = 17/2 ∧
    chartData [⟨"cat", .obj,
        [.str "g", .str "g", .str "g", .str "g", .str "g", .str "g"]⟩,
      ⟨"val", .numeric, [.num 1, .num 2, .num 3, .num 4, .num 5, .num 100]⟩]
      .box [("x_axis", "cat"), ("y_axis", "val")]
      = .ok (.box ⟨[⟨"g", 9/4, 7/2, 19/4, 1, 100, 1, 17/2, [100]⟩],
        "cat", "val"⟩) ∧
    (17 : ℚ)/2 < 100 := by
  refine ⟨by decide, by decide, by decide, by decide, by decide, by decide⟩

theorem listMin_le (a : ℚ) (l : List ℚ) : ∀ x ∈ a :: l, listMin a l ≤ x := by
  induction l with
  | nil =>
    intro x hx
    rcases List.mem_cons.mp hx with rfl | h
    · exact le_refl x
    · cases h
  | cons b rest ih =>
    intro x hx
    have hstep : listMin a (b :: rest) = min b (listMin a rest) := rfl
    rcases List.mem_cons.mp hx with rfl | hx2
    · rw [hstep]
      exact le_trans (min_le_right _ _) (ih x (List.mem_cons_self x rest))
    · rcases List.mem_cons.mp hx2 with rfl | hx3
      · rw [hstep]
        exact min_le_left _ _
      · rw [hstep]
        exact le_trans (min_le_right _ _) (ih x (List.mem_cons_of_mem a hx3))

theorem le_listMax (a : ℚ) (l : List ℚ) : ∀ x ∈ a :: l, x ≤ listMax a l := by
  induction l with
  | nil =>
    intro x hx
    rcases List.mem_cons.mp hx with rfl | h
    · exact le_refl x
    · cases h
  | cons b rest ih =>
    intro x hx
    have hstep : listMax a (b :: rest) = max b (listMax a rest) := rfl
    rcases List.mem_cons.mp hx with rfl | hx2
    · rw [hstep]
      exact le_trans (ih x (List.mem_cons_self x rest)) (le_max_right _ _)
    · rcases List.mem_cons.mp hx2 with rfl | hx3
      · rw [hstep]
        exact le_max_left _ _
      · rw [hstep]
        exact le_trans (ih x (List.mem_cons_of_mem a hx3)) (le_max_right _ _)

theorem countP_range_pointwise : ∀ (n j0 : ℕ), j0 < n → ∀ (P : ℕ → Bool),
    (∀ k, k < n → (P k = true ↔ k = j0)) →
    (List.range n).countP P = 1 := by
  intro n
  induction n with
  | zero => intro j0 h; omega
  | succ m ih =>
    intro j0 hj P hiff
    rw [List.range_succ, List.countP_append]
    by_cases hm : j0 = m
    · have hzero : (List.range m).countP P = 0 := by
        apply List.countP_eq_zero.mpr
        intro a ha hpa
        have ham : a < m := List.mem_range.mp ha
        have := (hiff a (by omega)).mp hpa
        omega
      have hPm : P m = true := (hiff m (by omega)).mpr hm.symm
      simp [hzero, hPm]
    · have hPm : ¬(P m = true) := fun hpm => hm ((hiff m (by omega)).mp hpm).symm
      have hrec := ih j0 (by omega) P (fun k hk => hiff k (by omega))
      simp [hrec, hPm]

theorem sum_map_ite_eq_countP {α : Type} (p : α → Bool) (l : List α) :
    (l.map (fun a => if p a = true then 1 else 0)).sum = l.countP p := by
  induction l with
  | nil => rfl
  | cons a l ih =>
    rw [List.map_cons, List.sum_cons, List.countP_cons, ih]
    by_cases hpa : p a = true <;> simp [hpa] <;> omega

theorem histCounts_length (data : List ℚ) (lo w : ℚ) (nbins : ℕ) :
    (histCounts data lo w nbins).length = nbins := by
  simp [histCounts]

theorem histCounts_sum (data : List ℚ) (lo w : ℚ) (nbins : ℕ)
    (hone : ∀ x ∈ data,
      (List.range nbins).countP (fun j => inBin lo w nbins j x) = 1) :
    (histCounts data lo w nbins).sum = data.length := by
  induction data with
  | nil => simp [histCounts]
  | cons x rest ih =>
    have hsplit : (List.range nbins).map
        (fun j => (x :: rest).countP (inBin lo w nbins j))
        = (List.range nbins).map (fun j => rest.countP (inBin lo w nbins j)
            + if inBin lo w nbins j x = true then 1 else 0) := by
      apply List.map_congr_left
      intro j _
      rw [List.countP_cons]
    simp only [histCounts] at ih ⊢
    rw [hsplit, sum_map_add (fun j => rest.countP (inBin lo w nbins j))
        (fun j => if inBin lo w nbins j x = true then 1 else 0),
      ih (fun y hy => hone y (List.mem_cons_of_mem x hy)),
      sum_map_ite_eq_countP (fun j => inBin lo w nbins j x),
      hone x (List.mem_cons_self x rest), List.length_cons]

theorem inBin_iff (lo w : ℚ) (nbins : ℕ) (x : ℚ) (hn : 1 ≤ nbins) (hw : 0 < w)
    (hlo : lo ≤ x) (hhi : x ≤ histEdge lo w nbins) (j : ℕ) (hj : j < nbins) :
    (inBin lo w nbins j x = true ↔
      j = min (nbins - 1) (Int.toNat ⌊(x - lo) / w⌋)) := by
  set q : ℚ := (x - lo) / w with hq
  have hq0 : 0 ≤ q := div_nonneg (by linarith) (le_of_lt hw)
  have hqn : q ≤ (nbins : ℚ) := by
    rw [hq, div_le_iff hw]
    rw [histEdge] at hhi
    linarith
  have hedge_le : ∀ i : ℕ, (histEdge lo w i ≤ x ↔ (i : ℚ) ≤ q) := by
    intro i
    rw [histEdge, hq, le_div_iff hw]
    constructor <;> intro h <;> linarith
  have hedge_lt : ∀ i : ℕ, (x < histEdge lo w i ↔ q < (i : ℚ)) := by
    intro i
    rw [histEdge, hq, div_lt_iff hw]
    constructor <;> intro h <;> linarith
  set m : ℤ := ⌊q⌋ with hm
  have hm0 : 0 ≤ m := Int.floor_nonneg.mpr hq0
  have hm_le : (m : ℚ) ≤ q := Int.floor_le q
  have hm_lt : q < (m : ℚ) + 1 := Int.lt_floor_add_one q
  have hmtn : ((m.toNat : ℕ) : ℚ) = (m : ℚ) := by
    exact_mod_cast Int.toNat_of_nonneg hm0
  by_cases hcase : q < (nbins : ℚ)
  · have hmn : m < (nbins : ℤ) := by
      by_contra hco
      push_neg at hco
      have hc : ((nbins : ℤ) : ℚ) ≤ (m : ℚ) := by exact_mod_cast hco
      push_cast at hc
      linarith
    have hmin : min (nbins - 1) m.toNat = m.toNat := by omega
    rw [hmin]
    by_cases hlast : j + 1 = nbins
    · simp only [inBin, if_pos hlast, Bool.and_eq_true, decide_eq_true_eq]
      rw [hedge_le j]
      constructor
      · rintro ⟨hjq, -⟩
        have hnbq : ((nbins : ℕ) : ℚ) = (j : ℚ) + 1 := by
          rw [← hlast]; push_cast; ring
        have hjm : (j : ℤ) = m := by
          rw [hm]
          symm
          apply Int.floor_eq_iff.mpr
          exact ⟨by exact_mod_cast hjq, by push_cast; linarith⟩
        omega
      · rintro rfl
        refine ⟨?_, hhi⟩
        rw [hmtn]
        exact hm_le
    · simp only [inBin, if_neg hlast, Bool.and_eq_true, decide_eq_true_eq]
      rw [hedge_le j, hedge_lt (j + 1)]
      constructor
      · rintro ⟨h1, h2⟩
        have hjm : (j : ℤ) = m := by
          rw [hm]
          symm
          apply Int.floor_eq_iff.mpr
          exact ⟨by exact_mod_cast h1, by push_cast at h2 ⊢; linarith⟩
        omega
      · rintro rfl
        constructor
        · rw [hmtn]
          exact hm_le
        · rw [show ((m.toNat + 1 : ℕ) : ℚ) = ((m.toNat : ℕ) : ℚ) + 1 from by
            push_cast; ring, hmtn]
          exact hm_lt
  · have hqe : q = (nbins : ℚ) := le_antisymm hqn (not_lt.mp hcase)
    have hme : m = (nbins : ℤ) := by
      rw [hm, hqe]
      exact_mod_cast Int.floor_natCast nbins
    have hmin : min (nbins - 1) m.toNat = nbins - 1 := by omega
    rw [hmin]
    by_cases hlast : j + 1 = nbins
    · simp only [inBin, if_pos hlast, Bool.and_eq_true, decide_eq_true_eq]
      constructor
      · intro
        omega
      · intro hj'
        refine ⟨?_, hhi⟩
        rw [hedge_le j, hqe]
        exact_mod_cast Nat.le_of_lt hj
    · simp only [inBin, if_neg hlast, Bool.and_eq_true, decide_eq_true_eq]
      rw [hedge_le j, hedge_lt (j + 1), hqe]
      constructor
      · rintro ⟨-, h2⟩
        exfalso
        have : (nbins : ℕ) < j + 1 := by exact_mod_cast h2
        omega
      · intro hj'
        omega

theorem countP_inBin_eq_one (lo w : ℚ) (nbins : ℕ) (x : ℚ) (hn : 1 ≤ nbins)
    (hw : 0 < w) (hlo : lo ≤ x) (hhi : x ≤ histEdge lo w nbins) :
    (List.range nbins).countP (fun j => inBin lo w nbins j x) = 1 := by
  apply countP_range_pointwise nbins (min (nbins - 1) (Int.toNat ⌊(x - lo) / w⌋))
    (by omega) _
  intro k hk
  exact inBin_iff lo w nbins x hn hw hlo hhi k hk

theorem length_filter_range_lt (n : ℕ) (m : ℤ) :
    ((List.range n).filter (fun (k : ℕ) => decide ((k : ℤ) < m))).length
      = min n m.toNat := by
  induction n with
  | zero => simp
  | succ n' ih =>
    rw [List.range_succ, List.filter_append, List.length_append, ih]
    by_cases h : (n' : ℤ) < m
    · have hfil : List.filter (fun (k : ℕ) => decide ((k : ℤ) < m)) [n'] = [n'] := by
        simp [h]
      rw [hfil]
      simp only [List.length_cons, List.length_nil]
      omega
    · have hfil : List.filter (fun (k : ℕ) => decide ((k : ℤ) < m)) [n'] = [] := by
        simp [h]
      rw [hfil]
      simp only [List.length_nil]
      omega

theorem sturges_key (n k : ℕ) (hn : 1 ≤ n) :
    (10 ^ (500 * (k + 1)) ≤ n ^ 1661) ↔
      ((k : ℝ) + 1 ≤ 3.322 * Real.logb 10 (n : ℝ)) := by
  have hn0 : (0 : ℝ) < (n : ℝ) := by exact_mod_cast hn
  have h10 : (1 : ℝ) < 10 := by norm_num
  have step1 : (10 ^ (500 * (k + 1)) ≤ n ^ 1661) ↔
      ((10 : ℝ) ^ (500 * (k + 1)) ≤ (n : ℝ) ^ (1661 : ℕ)) := by
    rw [← Nat.cast_le (α := ℝ)]
    push_cast
    exact Iff.rfl
  have step2 : ((10 : ℝ) ^ (500 * (k + 1)) ≤ (n : ℝ) ^ (1661 : ℕ)) ↔
      ((500 * ((k : ℝ) + 1)) ≤ 1661 * Real.logb 10 (n : ℝ)) := by
    rw [← Real.logb_le_logb h10 (pow_pos (by norm_num) _) (pow_pos hn0 _),
      Real.logb_pow, Real.logb_pow, Real.logb_self_eq_one h10]
    push_cast
    constructor <;> intro h <;> linarith
  rw [step1, step2]
  have h322 : (3.322 : ℝ) = 1661 / 500 := by norm_num
  rw [h322]
  constructor <;> intro h <;> linarith

theorem sturges_eq_formula (n : ℕ) (hn : 1 ≤ n) :
    (sturgesBins n : ℤ) = min 30 ⌊(1 : ℝ) + 3.322 * Real.logb 10 (n : ℝ)⌋ := by
  have hL0 : 0 ≤ Real.logb 10 (n : ℝ) :=
    Real.logb_nonneg (by norm_num) (by exact_mod_cast hn)
  set m : ℤ := ⌊(3.322 : ℝ) * Real.logb 10 (n : ℝ)⌋ with hm
  have hm0 : 0 ≤ m := by
    rw [hm]
    exact Int.floor_nonneg.mpr (mul_nonneg (by norm_num) hL0)
  have hpt : ∀ k ∈ List.range 30,
      (decide (10 ^ (500 * (k + 1)) ≤ n ^ 1661)) = (decide ((k : ℤ) < m)) := by
    intro k _
    apply decide_eq_decide.mpr
    rw [sturges_key n k hn, Int.lt_iff_add_one_le, hm, Int.le_floor]
    push_cast
    exact Iff.rfl
  have hfloor : ⌊(1 : ℝ) + 3.322 * Real.logb 10 (n : ℝ)⌋ = 1 + m := by
    rw [add_comm, hm]
    rw [show ((1 : ℝ)) = ((1 : ℤ) : ℝ) from by norm_num, Int.floor_add_int]
    ring
  rw [sturgesBins, List.filter_congr hpt, length_filter_range_lt, hfloor]
  push_cast
  omega

theorem sturgesBins_pos (n : ℕ) : 1 ≤ sturgesBins n := by
  rw [sturgesBins]
  omega

set_option maxRecDepth 200000 in
/-- C5: histogram aggregation uses Sturges' rule capped at 30 —
`min(30, ⌊1 + 3.322·log10 n⌋)` bins (7 bins when n = 100) — the returned
counts sum to the number of non-missing values, the returned bins are the
midpoints of the computed bin edges, a non-numeric column fails with
`InvalidColumnType`, and a column with zero non-missing values fails with
`InvalidParameters`. -/
theorem c5_histogram_spec :
    sturgesBins 100 = 7 ∧
    (∀ n : ℕ, 1 ≤ n →
      (sturgesBins n : ℤ) = min 30 ⌊(1 : ℝ) + 3.322 * Real.logb 10 (n : ℝ)⌋) ∧
    (∀ t ps colName c, getParam ps "column" = some colName →
      findCol t colName = some c →
      (c.dtype ≠ .numeric → chartData t .histogram ps = .error .invalidColumnType) ∧
      (c.dtype = .numeric → c.cells.filterMap qOf = [] →
        chartData t .histogram ps = .error .invalidParams) ∧
      (∀ d rest, c.dtype = .numeric → c.cells.filterMap qOf = d :: rest →
        ∃ bins counts,
          chartData t .histogram ps = .ok (.hist ⟨bins, counts, colName⟩) ∧
          counts.sum = (d :: rest).length ∧
          counts.length = sturgesBins (d :: rest).length ∧
          ∃ lo w, 0 < w ∧
            bins = midpoints (histBinEdges lo w (sturgesBins (d :: rest).length)) ∧
            counts = histCounts (d :: rest) lo w (sturgesBins (d :: rest).length))) := by
  refine ⟨by decide, fun n hn => sturges_eq_formula n hn, ?_⟩
  intro t ps colName c hg hf
  have hres : resolve1 t ps "column" = some (colName, c) := by
    simp [resolve1, hg, hf]
  refine ⟨?_, ?_, ?_⟩
  · intro hd
    simp [chartData, histBranch, hres, hd]
  · intro hd hdata
    simp [chartData, histBranch, hres, hd, hdata]
  · intro d rest hd hdata
    have hnb : 1 ≤ sturgesBins (d :: rest).length := sturgesBins_pos _
    set nbins := sturgesBins (d :: rest).length with hnbins
    set mn := listMin d rest with hmn
    set mx := listMax d rest with hmx
    have hmn_le : ∀ z ∈ d :: rest, mn ≤ z := listMin_le d rest
    have hle_mx : ∀ z ∈ d :: rest, z ≤ mx := le_listMax d rest
    have hmnmx : mn ≤ mx :=
      le_trans (hmn_le d (List.mem_cons_self d rest))
        (hle_mx d (List.mem_cons_self d rest))
    set lo := if mn = mx then mn - 1/2 else mn with hlo
    set hi := if mn = mx then mx + 1/2 else mx with hhi
    have hlohi : lo < hi := by
      by_cases h : mn = mx
      · rw [hlo, hhi, if_pos h, if_pos h]
        linarith
      · rw [hlo, hhi, if_neg h, if_neg h]
        exact lt_of_le_of_ne hmnmx h
    set w := (hi - lo) / (nbins : ℚ) with hw
    have hnbq : (0 : ℚ) < (nbins : ℚ) := by exact_mod_cast hnb
    have hwpos : 0 < w := div_pos (by linarith) hnbq
    have hedge : histEdge lo w nbins = hi := by
      rw [histEdge, hw]
      field_simp
    have hmem : ∀ z ∈ d :: rest, lo ≤ z ∧ z ≤ histEdge lo w nbins := by
      intro z hz
      constructor
      · have hz' := hmn_le z hz
        by_cases h : mn = mx
        · rw [hlo, if_pos h]
          linarith
        · rw [hlo, if_neg h]
          linarith
      · rw [hedge]
        have hz' := hle_mx z hz
        by_cases h : mn = mx
        · rw [hhi, if_pos h]
          linarith
        · rw [hhi, if_neg h]
          linarith
    refine ⟨midpoints (histBinEdges lo w nbins), histCounts (d :: rest) lo w nbins,
      ?_, ?_, histCounts_length _ _ _ _, lo, w, hwpos, rfl, rfl⟩
    · simp [chartData, histBranch, hres, hd, hdata, hnbins, hmn, hmx, hlo, hhi, hw]
    · apply histCounts_sum
      intro x hx
      exact countP_inBin_eq_one lo w nbins x hnb hwpos (hmem x hx).1 (hmem x hx).2

/-- C5 witness: concrete error cases, and for a column with values [1,2,3]
the counts sum to 3 with `sturgesBins 3` bins at the computed edges. -/
theorem c5_histogram_spec_witness :
    (chartData [⟨"v", .obj, [.str "s"]⟩] .histogram [("column", "v")]
      = .error .invalidColumnType) ∧
    (chartData [⟨"v", .numeric, [.nan]⟩] .histogram [("column", "v")]
      = .error .invalidParams) ∧
    (∃ bins counts,
      chartData [⟨"v", .numeric, [.num 1, .num 2, .num 3]⟩] .histogram
          [("column", "v")] = .ok (.hist ⟨bins, counts, "v"⟩) ∧
      counts.sum = ((1 : ℚ) :: [2, 3]).length ∧
      counts.length = sturgesBins ((1 : ℚ) :: [2, 3]).length ∧
      ∃ lo w, 0 < w ∧
        bins = midpoints (histBinEdges lo w (sturgesBins ((1 : ℚ) :: [2, 3]).length)) ∧
        counts = histCounts ((1 : ℚ) :: [2, 3]) lo w
          (sturgesBins ((1 : ℚ) :: [2, 3]).length)) := by
  have h := c5_histogram_spec.2.2
  refine ⟨(h [⟨"v", .obj, [.str "s"]⟩] [("column", "v")] "v" ⟨"v", .obj, [.str "s"]⟩
      (by decide) (by decide)).1 (by decide),
    (h [⟨"v", .numeric, [.nan]⟩] [("column", "v")] "v" ⟨"v", .numeric, [.nan]⟩
      (by decide) (by decide)).2.1 (by decide) (by decide),
    (h [⟨"v", .numeric, [.num 1, .num 2, .num 3]⟩] [("column", "v")] "v"
      ⟨"v", .numeric, [.num 1, .num 2, .num 3]⟩ (by decide) (by decide)).2.2
      1 [2, 3] (by decide) (by decide)⟩
